import Mathlib

/-!
Shallow embedding of the calculator engine of `src/main.ts` (mirrored by
`src/main.js`).  JS strings are modelled as `List Char`; JS numbers as
`JSNum`: either `nan` or an exact rational.  The float-specific pieces
(`Math.pow`, `Math.sqrt`, `Number.prototype.toString`) are fields of a
`NumModel` parameter, with a concrete instance `jsModel` that is exact on
the integer values the concrete claims exercise; exact rational arithmetic
stands in for double arithmetic (rounding, overflow to Infinity and
exponent-formatted output are not modelled).
-/

namespace Calc

/-- JS strings as lists of characters. -/
abbrev Str := List Char

/-- The characters of a string literal ("abc" as a JS string value). -/
def S (s : String) : Str := s.data

/-- An exact (unnormalized) fraction: value `num / den`.  Every
constructor below keeps `den` nonzero, so the value is well defined and
its sign is the sign of `num`. -/
structure Frac where
  num : ℤ
  den : ℕ
  deriving DecidableEq, Repr

/-- The fraction `n / 1`. -/
def Frac.ofInt (n : ℤ) : Frac := ⟨n, 1⟩

/-- Exact `a + b`. -/
def Frac.add (a b : Frac) : Frac := ⟨a.num * b.den + b.num * a.den, a.den * b.den⟩

/-- Exact `a - b`. -/
def Frac.sub (a b : Frac) : Frac := ⟨a.num * b.den - b.num * a.den, a.den * b.den⟩

/-- Exact `a * b`. -/
def Frac.mul (a b : Frac) : Frac := ⟨a.num * b.num, a.den * b.den⟩

/-- Exact `a / b` (for `b` of nonzero value); the divisor's sign moves to
the numerator so the denominator stays a natural number. -/
def Frac.div (a b : Frac) : Frac :=
  if b.num < 0 then ⟨-(a.num * b.den), a.den * b.num.natAbs⟩
  else ⟨a.num * b.den, a.den * b.num.natAbs⟩

instance {α β : Type} [DecidableEq α] [DecidableEq β] : DecidableEq (Except α β) :=
  fun x y =>
    match x, y with
    | .ok a, .ok b =>
        if h : a = b then .isTrue (by rw [h]) else .isFalse (by simp [h])
    | .error a, .error b =>
        if h : a = b then .isTrue (by rw [h]) else .isFalse (by simp [h])
    | .ok _, .error _ => .isFalse (by simp)
    | .error _, .ok _ => .isFalse (by simp)

/-- A JS number: NaN, or a finite value modelled exactly as a fraction. -/
inductive JSNum where
  | nan : JSNum
  | num : Frac → JSNum
  deriving DecidableEq, Repr

/-- JS `a + b` on numbers (NaN-propagating). -/
def jsAdd : JSNum → JSNum → JSNum
  | .num a, .num b => .num (a.add b)
  | _, _ => .nan

/-- JS `a - b` on numbers (NaN-propagating). -/
def jsSub : JSNum → JSNum → JSNum
  | .num a, .num b => .num (a.sub b)
  | _, _ => .nan

/-- JS `a * b` on numbers (NaN-propagating). -/
def jsMul : JSNum → JSNum → JSNum
  | .num a, .num b => .num (a.mul b)
  | _, _ => .nan

/-- JS `a / b` on numbers (NaN-propagating).  In the engine this raw
division only runs behind `safeDivide`'s `b === 0` validation (or with
the default `b = 1`), so the division below is never taken at a divisor
of value `0` (where JS would give an infinity). -/
def jsDiv : JSNum → JSNum → JSNum
  | .num a, .num b => .num (a.div b)
  | _, _ => .nan

/-- JS `a === 0` on a number (false on NaN): the check of `safeDivide`'s
validator.  A fraction has value zero exactly when its numerator is. -/
def jsEqZero : JSNum → Bool
  | .nan => false
  | .num a => a.num = 0

/-- JS `a < 0` (false on NaN), the check of `safeSqrt`'s validator: with
a positive denominator the value is negative exactly when the numerator
is. -/
def jsLtZero : JSNum → Bool
  | .nan => false
  | .num a => a.num < 0

/-- The operations the UI wires into the engine (`operations` table in
`src/main.ts` line 232): `divide` is `safeDivide` and `sqrt` is `safeSqrt`;
the rest are the raw arithmetic functions.  Stored as a tag rather than a
function value. -/
inductive Op where
  | add | subtract | multiply | divide | power | sqrt
  deriving DecidableEq, Repr

/-- The float-dependent parts of the semantics.  `powFn` models
`Math.pow`, `sqrtFn` models `Math.sqrt` (on its nonnegative-validated
inputs), `toString` models `Number.prototype.toString`. -/
structure NumModel where
  powFn : JSNum → JSNum → JSNum
  sqrtFn : JSNum → JSNum
  toString : JSNum → Str

/-- A call `op(a, b)` with both arguments, as made by `performOperation`
and the chaining branch of `handleOperation`.  `divide` is `safeDivide`:
its validator throws "Cannot divide by zero" when `b === 0`, before the
division runs; `sqrt` is `safeSqrt` (it ignores `b`): its validator throws
"Negative number under root" when `a < 0`.  A thrown error is `.error`. -/
def applyBin (M : NumModel) : Op → JSNum → JSNum → Except Str JSNum
  | .add, a, b => .ok (jsAdd a b)
  | .subtract, a, b => .ok (jsSub a b)
  | .multiply, a, b => .ok (jsMul a b)
  | .divide, a, b =>
      if jsEqZero b then .error (S "Cannot divide by zero") else .ok (jsDiv a b)
  | .power, a, b => .ok (M.powFn a b)
  | .sqrt, a, _ =>
      if jsLtZero a then .error (S "Negative number under root") else .ok (M.sqrtFn a)

/-- A call `op(a)` with one argument, as made by the unary branch of
`handleOperation`.  JS default parameters fill the missing `b`:
`add`/`subtract` get `b = 0`, `multiply`/`divide`/`power` get `b = 1`
(src/main.ts lines 3-7); `safeDivide`'s validator sees `b = undefined`,
and `undefined === 0` is false, so the unary divide never throws. -/
def applyUn (M : NumModel) : Op → JSNum → Except Str JSNum
  | .add, a => .ok (jsAdd a (.num (.ofInt 0)))
  | .subtract, a => .ok (jsSub a (.num (.ofInt 0)))
  | .multiply, a => .ok (jsMul a (.num (.ofInt 1)))
  | .divide, a => .ok (jsDiv a (.num (.ofInt 1)))
  | .power, a => .ok (M.powFn a (.num (.ofInt 1)))
  | .sqrt, a =>
      if jsLtZero a then .error (S "Negative number under root") else .ok (M.sqrtFn a)

/-- Numeric value of a digit character. -/
def digitVal (c : Char) : ℕ := c.toNat - 48

/-- The natural number denoted by a digit string (most significant first). -/
def intOfDigits (l : List Char) : ℕ := l.foldl (fun acc c => 10 * acc + digitVal c) 0

/-- JS `parseFloat` on the fragment of strings the calculator produces:
an optional sign, then decimal digits, then optionally a dot and more
digits; any trailing characters are ignored; NaN when no digit was read.
(The exponent and "Infinity" forms of full `parseFloat` never arise from
the engine's digit/dot/minus strings and are not modelled.) -/
def parseFloat (s : Str) : JSNum :=
  let t := if s.head? = some '-' ∨ s.head? = some '+' then s.tail else s
  let neg := s.head? = some '-'
  let ip := t.takeWhile Char.isDigit
  let t2 := t.dropWhile Char.isDigit
  let fp := if t2.head? = some '.' then t2.tail.takeWhile Char.isDigit else []
  if ip.isEmpty && fp.isEmpty then .nan
  else
    let mag : Frac := ⟨(intOfDigits ip * 10 ^ fp.length + intOfDigits fp : ℕ), 10 ^ fp.length⟩
    .num (if neg = true then ⟨-mag.num, mag.den⟩ else mag)

/-- Decimal digits of a natural number, most significant first. -/
def natDigits (n : ℕ) : Str :=
  Nat.toDigits 10 n

/-- Decimal digits of the fraction `rem / den` (with `rem < den`), by
long division, up to `fuel` places; the expansion stops when the
remainder is zero, so trailing zeros are omitted. -/
def fracDigits : ℕ → ℕ → ℕ → Str
  | 0, _, _ => []
  | fuel + 1, rem, den =>
      if rem = 0 then []
      else Char.ofNat (48 + 10 * rem / den) :: fracDigits fuel (10 * rem % den) den

/-- The digits of the nonnegative value `n / den`: the integer part, and
a dot plus fraction digits when the value is not an integer. -/
def natPartString (n den : ℕ) : Str :=
  if n % den = 0 then natDigits (n / den)
  else natDigits (n / den) ++ '.' :: fracDigits 20 (n % den) den

/-- `Number.prototype.toString` on the exact model: integer values print
as their decimal digits with a leading `-` when negative (exactly JS for
the integer magnitudes the claims exercise); other values print sign,
integer part, a dot and up to 20 fraction digits (exact for terminating
decimals; JS's shortest-roundtrip float formatting, exponent notation and
`Infinity` are not modelled). -/
def numToString (q : Frac) : Str :=
  if q.num < 0 then '-' :: natPartString q.num.natAbs q.den
  else natPartString q.num.toNat q.den

/-- Largest `k ≤ bound` with `k * k ≤ n` (by downward scan). -/
def natSqrtAux : ℕ → ℕ → ℕ
  | 0, _ => 0
  | k + 1, n => if (k + 1) * (k + 1) ≤ n then k + 1 else natSqrtAux k n

/-- Integer square root, `⌊√n⌋`. -/
def natSqrt (n : ℕ) : ℕ := natSqrtAux n n

/-- The concrete numeric model used for concrete runs: exact fraction
arithmetic, `Math.pow` exact for nonnegative integer exponents,
`Math.sqrt` exact where the square root is rational.  Elsewhere the true
values are irrational floats (or NaN, for a negative base with a
fractional exponent) outside the exact model, and `nan` stands in; no
claim evaluates those branches. -/
def jsModel : NumModel where
  powFn a b :=
    match a, b with
    | .num x, .num y =>
        if 0 ≤ y.num ∧ y.num % (y.den : ℤ) = 0 then
          .num ⟨x.num ^ (y.num.toNat / y.den), x.den ^ (y.num.toNat / y.den)⟩
        else .nan
    | _, _ => .nan
  sqrtFn a :=
    match a with
    | .num q =>
        if 0 ≤ q.num ∧ natSqrt q.num.toNat * natSqrt q.num.toNat = q.num.toNat ∧
            natSqrt q.den * natSqrt q.den = q.den then
          .num ⟨natSqrt q.num.toNat, natSqrt q.den⟩
        else .nan
    | .nan => .nan
  toString n :=
    match n with
    | .nan => S "NaN"
    | .num q => numToString q

/-- The `CalculatorState` record of `src/main.ts` lines 27-33.
`null` is `none`; the stored operation function is its `Op` tag. -/
structure CalculatorState where
  currentValue : Str
  previousValue : Option JSNum
  operation : Option Op
  shouldResetDisplay : Bool
  currentExpression : Str
  deriving DecidableEq, Repr

/-- The engine state together with the text of the `#error` DOM element,
which `setError`/`clearError` write (the error output surface). -/
structure Engine where
  st : CalculatorState
  errorText : Str
  deriving DecidableEq, Repr

/-- The state built in `createCalculator` (src/main.ts lines 36-42),
with an empty error element. -/
def initEngine : Engine :=
  ⟨⟨S "0", none, none, false, S ""⟩, S ""⟩

/-- `handleNumber` (src/main.ts lines 100-110): on a fresh-entry flag the
input replaces `currentValue`; otherwise it is appended, except that a
`currentValue` of exactly "0" is replaced by the input. -/
def handleNumber (value : Str) (st : CalculatorState) : CalculatorState :=
  if st.shouldResetDisplay then
    { st with currentValue := value, shouldResetDisplay := false }
  else
    { st with currentValue := if st.currentValue = S "0" then value
        else st.currentValue ++ value }

/-- `handleBackspace` (src/main.ts lines 52-60): a single character, or a
minus sign plus one character, resets to "0"; otherwise `slice(0, -1)`
drops the last character. -/
def handleBackspace (st : CalculatorState) : CalculatorState :=
  if st.currentValue.length = 1 ∨
      (st.currentValue.head? = some '-' ∧ st.currentValue.length = 2) then
    { st with currentValue := S "0" }
  else
    { st with currentValue := st.currentValue.dropLast }

/-- The `newValue` ternary of `handleSign`: a leading `-` is removed
(`slice(1)`) or prepended. -/
def toggleMinus (v : Str) : Str :=
  if v.head? = some '-' then v.tail else '-' :: v

/-- `handleSign` (src/main.ts lines 62-70): no-op on "0"; otherwise the
sign toggles. -/
def handleSign (st : CalculatorState) : CalculatorState :=
  if st.currentValue ≠ S "0" then
    { st with currentValue := toggleMinus st.currentValue }
  else st

/-- `performOperation` (src/main.ts lines 79-98): returns unchanged when
no operation or no previous value is pending; otherwise evaluates the
pending operation on (`previousValue`, `parseFloat currentValue`).  On
success the result replaces `currentValue`, the pending pair is cleared,
the expression gains " current =", and `clearError` empties the error
element; a thrown validation error lands in `catch`, which writes the
message to the error element and only sets `shouldResetDisplay`. -/
def performOperation (M : NumModel) (e : Engine) : Engine :=
  match e.st.operation, e.st.previousValue with
  | some op, some prev =>
      let current := parseFloat e.st.currentValue
      match applyBin M op prev current with
      | .ok result =>
          ⟨⟨M.toString result, none, none, true,
            e.st.currentExpression ++ S " " ++ M.toString current ++ S " ="⟩, S ""⟩
      | .error msg => ⟨{ e.st with shouldResetDisplay := true }, msg⟩
  | _, _ => e

/-- The `try` block of `handleOperation` (src/main.ts lines 113-141) as a
state transformer whose `.error` is a thrown validation error.
Branch order follows the source: chaining (not unary, both pendings
present, no fresh-entry flag) evaluates the pending operation; the unary
branch evaluates `operation` on `parseFloat currentValue` alone and
replaces the expression; the final branch records the new pending pair. -/
def handleOperationTry (M : NumModel) (op : Op) (opSymbol : Str) (isUnary : Bool)
    (st : CalculatorState) : Except Str CalculatorState :=
  match isUnary, st.operation, st.previousValue, st.shouldResetDisplay with
  | false, some pendingOp, some prev, false =>
      let currentNum := parseFloat st.currentValue
      (applyBin M pendingOp prev currentNum).map fun result =>
        { st with
            currentValue := M.toString result
            previousValue := some result
            operation := some op
            currentExpression := st.currentExpression ++ S " " ++
              M.toString currentNum ++ S " " ++ opSymbol
            shouldResetDisplay := true }
  | true, _, _, _ =>
      (applyUn M op (parseFloat st.currentValue)).map fun result =>
        { st with
            currentValue := M.toString result
            shouldResetDisplay := true
            currentExpression := opSymbol ++ S "(" ++ st.currentValue ++ S ")" }
  | _, _, _, _ =>
      .ok { st with
              previousValue := some (parseFloat st.currentValue)
              operation := some op
              shouldResetDisplay := true
              currentExpression := st.currentValue ++ S " " ++ opSymbol }

/-- `handleOperation` (src/main.ts lines 112-148): on success the new
state stands and `clearError` empties the error element; the `catch`
keeps the pre-attempt state, sets only `shouldResetDisplay`, and writes
the thrown message to the error element. -/
def handleOperation (M : NumModel) (op : Op) (opSymbol : Str) (isUnary : Bool)
    (e : Engine) : Engine :=
  match handleOperationTry M op opSymbol isUnary e.st with
  | .ok st' => ⟨st', S ""⟩
  | .error msg => ⟨{ e.st with shouldResetDisplay := true }, msg⟩

/-- `handleClear` (src/main.ts lines 151-161): identity defaults and an
empty error element. -/
def handleClear : Engine := initEngine

/-- The six commands of the engine's input surface. -/
inductive Cmd where
  | inputDigit (value : Str)
  | applyOp (op : Op) (symbol : Str) (isUnary : Bool)
  | equals
  | backspace
  | toggleSign
  | clear
  deriving DecidableEq, Repr

/-- One command dispatched to its handler.  `inputDigit`, `backspace`
and `toggleSign` touch neither `setError` nor `clearError`, so the error
element keeps its text. -/
def step (M : NumModel) : Cmd → Engine → Engine
  | .inputDigit v, e => ⟨handleNumber v e.st, e.errorText⟩
  | .applyOp op sym u, e => handleOperation M op sym u e
  | .equals, e => performOperation M e
  | .backspace, e => ⟨handleBackspace e.st, e.errorText⟩
  | .toggleSign, e => ⟨handleSign e.st, e.errorText⟩
  | .clear, _ => handleClear

/-- A command sequence run from the construction state. -/
def run (M : NumModel) (cmds : List Cmd) : Engine :=
  cmds.foldl (fun e cmd => step M cmd e) initEngine

/-- The display surface the adapter reads: `currentValue`. -/
def displayValue (e : Engine) : Str := e.st.currentValue

/-- The expression surface the adapter reads: `currentExpression`. -/
def expressionTrace (e : Engine) : Str := e.st.currentExpression

/-- A digit or a decimal point. -/
def isDigitDot (c : Char) : Bool := c.isDigit || c = '.'

/-- The spec's reading of "a valid numeric literal in text form": nonempty,
an optional leading `-`, then a nonempty body of digits and dots with at
most one dot and at least one digit. -/
def ValidLiteral (s : Str) : Bool :=
  let body := if s.head? = some '-' then s.tail else s
  (decide (body ≠ [])) && body.all isDigitDot &&
    (decide (body.count '.' ≤ 1)) && body.any Char.isDigit

/-- Well-formed literal tail after the first digit: digits, then at most
one dot, then digits. -/
def tailOk : Str → Bool
  | [] => true
  | c :: r => if c = '.' then r.all Char.isDigit else c.isDigit && tailOk r

/-- Well-formed unsigned literal body: a leading digit, then `tailOk`. -/
def bodyOk : Str → Bool
  | [] => false
  | c :: r => c.isDigit && tailOk r

/-- Well-formed literal: an optional leading `-`, then a `bodyOk` body.
Stronger than `ValidLiteral`: the body starts with a digit. -/
def goodLit (s : Str) : Bool :=
  if s.head? = some '-' then bodyOk s.tail else bodyOk s

/-- C1, counterexample.  On the initial state (`currentValue = "0"`,
`shouldResetDisplay = false`) inputting "." does not yield "0.": the code
replaces the "0" by the "." (src/main.ts line 106), so the claim's
append-for-dot rule fails. -/
theorem c1_counterexample :
    (handleNumber (S ".") initEngine.st).currentValue = S "." ∧
      (handleNumber (S ".") initEngine.st).currentValue ≠ S "0." := by
  decide

/-- C1, amended.  When `shouldResetDisplay` is false and `currentValue` is
exactly "0": inputting "0" leaves "0", inputting a nonzero digit d gives
d, and inputting "." gives "." — the input always replaces the "0", the
decimal point included. -/
theorem c1_input_on_zero (st : CalculatorState)
    (h0 : st.currentValue = S "0") (hr : st.shouldResetDisplay = false) :
    (handleNumber (S "0") st).currentValue = S "0" ∧
      (∀ d : Char, d.isDigit = true → d ≠ '0' →
        (handleNumber [d] st).currentValue = [d]) ∧
      (handleNumber (S ".") st).currentValue = S "." := by
  refine ⟨?_, fun d _ _ => ?_, ?_⟩ <;> simp [handleNumber, h0, hr, S]

/-- C1, witness: the amended rule evaluated on the initial state. -/
theorem c1_witness :
    (handleNumber (S "5") initEngine.st).currentValue = S "5" ∧
      (handleNumber (S ".") initEngine.st).currentValue = S "." := by
  have h := c1_input_on_zero initEngine.st (by decide) (by decide)
  exact ⟨h.2.1 '5' (by decide) (by decide), h.2.2⟩

/-- C3.  From the initial state, `5 ÷ 0 =` leaves the display at "0" (the
just-typed operand), keeps the pending pair (`previousValue = 5`,
`operation = divide`), sets `shouldResetDisplay`, and exposes the error
"Cannot divide by zero". -/
theorem c3_divide_by_zero_trace :
    run jsModel [.inputDigit (S "5"), .applyOp .divide (S "÷") false,
        .inputDigit (S "0"), .equals] =
      ⟨⟨S "0", some (.num ⟨5, 1⟩), some .divide, true, S "5 ÷"⟩,
        S "Cannot divide by zero"⟩ := by
  decide

/-- C5.  From the initial state, `5 + 3 × 2 =` displays "16": chaining
evaluates left to right, (5+3)*2. -/
theorem c5_chaining_left_to_right :
    displayValue (run jsModel [.inputDigit (S "5"), .applyOp .add (S "+") false,
        .inputDigit (S "3"), .applyOp .multiply (S "×") false,
        .inputDigit (S "2"), .equals]) = S "16" := by
  decide

/-- C6.  When `operation` or `previousValue` is absent, `performOperation`
(the Equals command) returns the engine unchanged — error text and
expression included — and a second Equals changes nothing either. -/
theorem c6_equals_noop (M : NumModel) (e : Engine)
    (h : e.st.operation = none ∨ e.st.previousValue = none) :
    performOperation M e = e ∧ performOperation M (performOperation M e) = e := by
  have h1 : performOperation M e = e := by
    cases ho : e.st.operation with
    | none => simp [performOperation, ho]
    | some op =>
        cases hp : e.st.previousValue with
        | none => simp [performOperation, ho, hp]
        | some p => rcases h with h | h <;> simp_all
  exact ⟨h1, by rw [h1, h1]⟩

/-- C6, witness: Equals on the freshly constructed engine is a no-op,
twice. -/
theorem c6_witness :
    performOperation jsModel initEngine = initEngine ∧
      performOperation jsModel (performOperation jsModel initEngine) = initEngine :=
  c6_equals_noop jsModel initEngine (Or.inl rfl)

/-- C8, counterexample.  ToggleSign is not self-inverse on "-0" (a value
different from "0", reachable e.g. as `0 . ± ⌫`): the first toggle gives
"0" and the second is then a no-op, so the value is not restored. -/
theorem c8_counterexample :
    (handleSign (handleSign ⟨S "-0", none, none, false, S ""⟩)).currentValue = S "0" ∧
      S "0" ≠ S "-0" := by
  decide

/-- `handleSign` away from "0" only toggles the sign of `currentValue`. -/
theorem handleSign_of_ne (st : CalculatorState) (h : st.currentValue ≠ S "0") :
    handleSign st = { st with currentValue := toggleMinus st.currentValue } := by
  simp [handleSign, h]

/-- `handleSign` on "0" is a no-op. -/
theorem handleSign_of_eq (st : CalculatorState) (h : st.currentValue = S "0") :
    handleSign st = st := by
  simp [handleSign, h]

/-- Double sign toggle restores a string that is neither "-0" nor headed
by "--". -/
theorem toggleMinus_twice (v : Str) (h1 : v ≠ S "-0") (h2 : v.take 2 ≠ S "--") :
    toggleMinus (toggleMinus v) = v := by
  cases v with
  | nil => rfl
  | cons c r =>
      by_cases hc : c = '-'
      · subst hc
        have : toggleMinus ('-' :: r) = r := by simp [toggleMinus]
        rw [this]
        cases r with
        | nil => rfl
        | cons d x =>
            have hd : d ≠ '-' := by
              intro h; apply h2; rw [h]; rfl
            simp [toggleMinus, hd]
      · simp [toggleMinus, hc]

/-- Away from "-0" and "--…", the first toggle never lands on "0". -/
theorem toggleMinus_ne_zero (v : Str) (h1 : v ≠ S "-0") :
    toggleMinus v ≠ S "0" := by
  cases v with
  | nil => simp [toggleMinus, S]
  | cons c r =>
      by_cases hc : c = '-'
      · subst hc
        have : toggleMinus ('-' :: r) = r := by simp [toggleMinus]
        rw [this]
        intro h
        exact h1 (by rw [h]; rfl)
      · simp [toggleMinus, hc, S]

/-- C8, amended.  ToggleSign twice restores any `currentValue` other than
"0", except the values "-0" (whose first toggle lands on the no-op value
"0") and those starting with "--" (never produced by the engine); on "0"
a single ToggleSign is a no-op. -/
theorem c8_toggle_sign_involutive :
    (∀ st : CalculatorState, st.currentValue ≠ S "0" → st.currentValue ≠ S "-0" →
      st.currentValue.take 2 ≠ S "--" → handleSign (handleSign st) = st) ∧
    (∀ st : CalculatorState, st.currentValue = S "0" → handleSign st = st) := by
  constructor
  · intro st h0 h1 h2
    rw [handleSign_of_ne st h0]
    rw [handleSign_of_ne _ (by simpa using toggleMinus_ne_zero _ h1)]
    obtain ⟨cv, pv, op, sr, ex⟩ := st
    simp only at h1 h2 ⊢
    rw [toggleMinus_twice cv h1 h2]
  · exact handleSign_of_eq

/-- C4.  A validation failure inside `handleOperation` — the pending
divide applied to a zero just-typed operand in the chaining case, or
sqrt of a negative current value in the unary case — lands in `catch`:
the new engine keeps every state field (`currentValue`, `previousValue`,
`operation`, `currentExpression`) at its pre-attempt value, only
`shouldResetDisplay` becomes true, and the failure message goes to the
error element, not into `currentValue` or `currentExpression`. -/
theorem c4_failure_rollback (M : NumModel) (e : Engine) (op : Op) (sym : Str) :
    (∀ p, e.st.previousValue = some p → e.st.operation = some .divide →
      e.st.shouldResetDisplay = false →
      jsEqZero (parseFloat e.st.currentValue) = true →
      handleOperation M op sym false e =
        ⟨{ e.st with shouldResetDisplay := true }, S "Cannot divide by zero"⟩) ∧
    (jsLtZero (parseFloat e.st.currentValue) = true →
      handleOperation M .sqrt sym true e =
        ⟨{ e.st with shouldResetDisplay := true }, S "Negative number under root"⟩) := by
  constructor
  · intro p hpv hop hsr hz
    unfold handleOperation handleOperationTry
    rw [hop, hpv, hsr]
    simp [applyBin, hz, Except.map]
  · intro hneg
    unfold handleOperation handleOperationTry
    simp [applyUn, hneg, Except.map]

/-- C4, witness: the two failure scenarios evaluated concretely — a
pending `5 ÷` with "0" typed and `+` pressed, and sqrt pressed on "-4". -/
theorem c4_witness :
    handleOperation jsModel .add (S "+") false
        ⟨⟨S "0", some (.num ⟨5, 1⟩), some .divide, false, S "5 ÷"⟩, S ""⟩ =
      ⟨⟨S "0", some (.num ⟨5, 1⟩), some .divide, true, S "5 ÷"⟩,
        S "Cannot divide by zero"⟩ ∧
    handleOperation jsModel .sqrt (S "√") true
        ⟨⟨S "-4", none, none, false, S ""⟩, S ""⟩ =
      ⟨⟨S "-4", none, none, true, S ""⟩, S "Negative number under root"⟩ := by
  refine ⟨?_, ?_⟩
  · exact (c4_failure_rollback jsModel _ .add (S "+")).1 _ rfl rfl rfl (by decide)
  · exact (c4_failure_rollback jsModel ⟨⟨S "-4", none, none, false, S ""⟩, S ""⟩
      .sqrt (S "√")).2 (by decide)

/-- C9.  The unary (sqrt) branch of `handleOperation` spreads the old
state and assigns only `currentValue`, `shouldResetDisplay` and
`currentExpression` (and the `catch` branch only `shouldResetDisplay`),
so `previousValue` and `operation` always survive a sqrt; consequently,
when a pending pair (o, p) exists and the sqrt succeeds with result `r`
(whose printed form reparses to `r`), the next Equals evaluates the old
pending operator `o` on (`p`, `r`). -/
theorem c9_sqrt_preserves_pending (M : NumModel) (e : Engine) (sym : Str) :
    ((handleOperation M .sqrt sym true e).st.previousValue = e.st.previousValue ∧
      (handleOperation M .sqrt sym true e).st.operation = e.st.operation) ∧
    (∀ (o : Op) (p r : JSNum),
      e.st.operation = some o → e.st.previousValue = some p →
      applyUn M .sqrt (parseFloat e.st.currentValue) = .ok r →
      parseFloat (M.toString r) = r →
      performOperation M (handleOperation M .sqrt sym true e) =
        match applyBin M o p r with
        | .ok v =>
            ⟨⟨M.toString v, none, none, true,
              (handleOperation M .sqrt sym true e).st.currentExpression ++ S " " ++
                M.toString r ++ S " ="⟩, S ""⟩
        | .error msg =>
            ⟨{ (handleOperation M .sqrt sym true e).st with shouldResetDisplay := true },
              msg⟩) := by
  constructor
  · unfold handleOperation handleOperationTry
    cases h : applyUn M .sqrt (parseFloat e.st.currentValue) <;>
      simp [h, Except.map]
  · intro o p r ho hp happ hrt
    have hst : handleOperation M .sqrt sym true e =
        ⟨⟨M.toString r, e.st.previousValue, e.st.operation, true,
          sym ++ S "(" ++ e.st.currentValue ++ S ")"⟩, S ""⟩ := by
      unfold handleOperation handleOperationTry
      simp [happ, Except.map]
    rw [hst]
    simp only [performOperation, ho, hp, hrt]

/-- C9, witness: sqrt on "4" with a pending `9 +`, then Equals, gives
9 + √4 = 11. -/
theorem c9_witness :
    performOperation jsModel (handleOperation jsModel .sqrt (S "√") true
        ⟨⟨S "4", some (.num ⟨9, 1⟩), some .add, false, S "9 +"⟩, S ""⟩) =
      ⟨⟨S "11", none, none, true, S "√(4) 2 ="⟩, S ""⟩ := by
  have h := (c9_sqrt_preserves_pending jsModel
      ⟨⟨S "4", some (.num ⟨9, 1⟩), some .add, false, S "9 +"⟩, S ""⟩ (S "√")).2
      .add (.num ⟨9, 1⟩) (.num ⟨2, 1⟩) rfl rfl (by decide) (by decide)
  rw [h]
  decide

/-- C10.  The error element is written only by operators, Equals and
Clear: `handleNumber`, `handleBackspace` and `handleSign` never touch it
(a stale message survives them), every successful `handleOperation` and
every successful `performOperation` ends in `clearError`, and
`handleClear` clears it. -/
theorem c10_error_text (M : NumModel) (e : Engine) :
    (∀ v, (step M (.inputDigit v) e).errorText = e.errorText) ∧
    ((step M .backspace e).errorText = e.errorText) ∧
    ((step M .toggleSign e).errorText = e.errorText) ∧
    ((step M .clear e).errorText = S "") ∧
    (∀ op sym u st', handleOperationTry M op sym u e.st = .ok st' →
      (step M (.applyOp op sym u) e).errorText = S "") ∧
    (∀ o p result, e.st.operation = some o → e.st.previousValue = some p →
      applyBin M o p (parseFloat e.st.currentValue) = .ok result →
      (step M .equals e).errorText = S "") := by
  refine ⟨fun v => rfl, rfl, rfl, rfl, ?_, ?_⟩
  · intro op sym u st' h
    simp [step, handleOperation, h]
  · intro o p result ho hp h
    simp [step, performOperation, ho, hp, h]

/-- C10, witness: a digit keeps a stale error text, and a successful
operator press clears the error element. -/
theorem c10_witness :
    (step jsModel (.inputDigit (S "1")) ⟨initEngine.st, S "Cannot divide by zero"⟩).errorText =
        S "Cannot divide by zero" ∧
      (step jsModel (.applyOp .add (S "+") false) initEngine).errorText = S "" := by
  refine ⟨(c10_error_text jsModel ⟨initEngine.st, S "Cannot divide by zero"⟩).1 (S "1"), ?_⟩
  exact (c10_error_text jsModel initEngine).2.2.2.2.1 .add (S "+") false
    ⟨S "0", some (.num ⟨0, 1⟩), some .add, true, S "0 +"⟩ (by decide)

/-- C2, counterexample.  The engine itself never rejects a decimal
point: from the initial state, InputDigit "." (which replaces the "0")
and a second InputDigit "." (which appends) leave `currentValue` as
".." — two dots and no digit, not a valid numeric literal. -/
theorem c2_counterexample :
    displayValue (run jsModel [.inputDigit (S "."), .inputDigit (S ".")]) = S ".." ∧
      ValidLiteral (S "..") = false := by
  decide

/-- A digit is neither a minus, a plus, nor a dot. -/
theorem isDigit_ne (c : Char) (h : c.isDigit = true) :
    c ≠ '-' ∧ c ≠ '+' ∧ c ≠ '.' := by
  refine ⟨?_, ?_, ?_⟩ <;> rintro rfl <;> exact absurd h (by decide)

/-- Unfolding `tailOk` at a dot. -/
theorem tailOk_cons_dot (r : Str) : tailOk ('.' :: r) = r.all Char.isDigit := by
  simp [tailOk]

/-- Unfolding `tailOk` at a non-dot character. -/
theorem tailOk_cons_ne (c : Char) (r : Str) (hc : c ≠ '.') :
    tailOk (c :: r) = (c.isDigit && tailOk r) := by
  simp [tailOk, hc]

/-- Unfolding `bodyOk` at its head. -/
theorem bodyOk_cons (c : Char) (r : Str) :
    bodyOk (c :: r) = (c.isDigit && tailOk r) := rfl

/-- Appending a digit keeps a literal tail well formed. -/
theorem tailOk_append_digit (l : Str) (d : Char) (hd : d.isDigit = true)
    (h : tailOk l = true) : tailOk (l ++ [d]) = true := by
  induction l with
  | nil =>
      rw [List.nil_append, tailOk_cons_ne d [] (isDigit_ne d hd).2.2, hd]
      rfl
  | cons c r ih =>
      rw [List.cons_append]
      by_cases hc : c = '.'
      · subst hc
        rw [tailOk_cons_dot] at h
        rw [tailOk_cons_dot, List.all_append, h]
        simp [hd]
      · rw [tailOk_cons_ne c r hc, Bool.and_eq_true] at h
        rw [tailOk_cons_ne c _ hc, Bool.and_eq_true]
        exact ⟨h.1, ih h.2⟩

/-- A dot may be appended to an all-digit tail. -/
theorem tailOk_append_dot (l : Str) (h : l.all Char.isDigit = true) :
    tailOk (l ++ ['.']) = true := by
  induction l with
  | nil => rw [List.nil_append, tailOk_cons_dot]; rfl
  | cons c r ih =>
      rw [List.all_cons, Bool.and_eq_true] at h
      rw [List.cons_append, tailOk_cons_ne c _ (isDigit_ne c h.1).2.2,
        Bool.and_eq_true]
      exact ⟨h.1, ih h.2⟩

/-- A well-formed tail without a dot is all digits. -/
theorem all_digit_of_tailOk (l : Str) (h : tailOk l = true) (hnd : '.' ∉ l) :
    l.all Char.isDigit = true := by
  induction l with
  | nil => rfl
  | cons c r ih =>
      have hc : c ≠ '.' := by
        intro hh; apply hnd; rw [hh]; exact List.mem_cons_self _ _
      rw [tailOk_cons_ne c r hc, Bool.and_eq_true] at h
      rw [List.all_cons, Bool.and_eq_true]
      exact ⟨h.1, ih h.2 fun hm => hnd (List.mem_cons_of_mem _ hm)⟩

/-- `all` restricts to `dropLast`. -/
theorem all_dropLast (l : Str) (p : Char → Bool) (h : l.all p = true) :
    l.dropLast.all p = true := by
  rw [List.all_eq_true] at h ⊢
  exact fun x hx => h x ((List.dropLast_sublist l).subset hx)

/-- Dropping the last character keeps a literal tail well formed. -/
theorem tailOk_dropLast (l : Str) (h : tailOk l = true) :
    tailOk l.dropLast = true := by
  induction l with
  | nil => rfl
  | cons c r ih =>
      cases r with
      | nil => rfl
      | cons d x =>
          rw [List.dropLast_cons₂]
          by_cases hc : c = '.'
          · subst hc
            rw [tailOk_cons_dot] at h
            rw [tailOk_cons_dot]
            exact all_dropLast _ _ h
          · rw [tailOk_cons_ne c _ hc, Bool.and_eq_true] at h
            rw [tailOk_cons_ne c _ hc, Bool.and_eq_true]
            exact ⟨h.1, ih h.2⟩

/-- A well-formed body is a digit plus a well-formed tail. -/
theorem bodyOk_head_digit (l : Str) (h : bodyOk l = true) :
    ∃ c r, l = c :: r ∧ c.isDigit = true ∧ tailOk r = true := by
  cases l with
  | nil => exact absurd h (by decide)
  | cons c r =>
      rw [bodyOk_cons, Bool.and_eq_true] at h
      exact ⟨c, r, rfl, h.1, h.2⟩

/-- Appending a digit keeps a literal body well formed. -/
theorem bodyOk_append_digit (l : Str) (d : Char) (hd : d.isDigit = true)
    (h : bodyOk l = true) : bodyOk (l ++ [d]) = true := by
  obtain ⟨c, r, rfl, hc, ht⟩ := bodyOk_head_digit l h
  rw [List.cons_append, bodyOk_cons, Bool.and_eq_true]
  exact ⟨hc, tailOk_append_digit r d hd ht⟩

/-- Appending a first dot keeps a literal body well formed. -/
theorem bodyOk_append_dot (l : Str) (h : bodyOk l = true) (hnd : '.' ∉ l) :
    bodyOk (l ++ ['.']) = true := by
  obtain ⟨c, r, rfl, hc, ht⟩ := bodyOk_head_digit l h
  rw [List.cons_append, bodyOk_cons, Bool.and_eq_true]
  exact ⟨hc, tailOk_append_dot r
    (all_digit_of_tailOk r ht fun hm => hnd (List.mem_cons_of_mem _ hm))⟩

/-- Dropping the last of at least two characters keeps a body well
formed. -/
theorem bodyOk_dropLast (l : Str) (h : bodyOk l = true) (hl : 2 ≤ l.length) :
    bodyOk l.dropLast = true := by
  obtain ⟨c, r, rfl, hc, ht⟩ := bodyOk_head_digit l h
  cases r with
  | nil => simp at hl
  | cons d x =>
      rw [List.dropLast_cons₂, bodyOk_cons, Bool.and_eq_true]
      exact ⟨hc, tailOk_dropLast _ ht⟩

/-- A well-formed body is a well-formed literal (its head is a digit, so
no sign is stripped). -/
theorem goodLit_of_bodyOk (l : Str) (h : bodyOk l = true) : goodLit l = true := by
  obtain ⟨c, r, rfl, hc, ht⟩ := bodyOk_head_digit l h
  unfold goodLit
  rw [List.head?_cons, if_neg (by simpa using (isDigit_ne c hc).1)]
  rw [bodyOk_cons, Bool.and_eq_true]
  exact ⟨hc, ht⟩

/-- A well-formed literal is a signed or unsigned well-formed body. -/
theorem goodLit_cases (s : Str) (h : goodLit s = true) :
    (s.head? = some '-' ∧ bodyOk s.tail = true) ∨
      (s.head? ≠ some '-' ∧ bodyOk s = true) := by
  unfold goodLit at h
  by_cases hm : s.head? = some '-'
  · exact Or.inl ⟨hm, by simpa [hm] using h⟩
  · exact Or.inr ⟨hm, by simpa [hm] using h⟩

/-- Appending a digit keeps a literal well formed. -/
theorem goodLit_append_digit (s : Str) (d : Char) (hd : d.isDigit = true)
    (h : goodLit s = true) : goodLit (s ++ [d]) = true := by
  rcases goodLit_cases s h with ⟨hm, hb⟩ | ⟨hm, hb⟩
  · cases s with
    | nil => simp at hm
    | cons c r =>
        simp at hm
        subst hm
        simp only [List.cons_append]
        simp only [goodLit, List.head?_cons, List.tail_cons, if_pos rfl]
        exact bodyOk_append_digit r d hd (by simpa using hb)
  · cases s with
    | nil => simp [bodyOk] at hb
    | cons c r =>
        have hc : c ≠ '-' := by simpa using hm
        simp only [List.cons_append]
        simp only [goodLit, List.head?_cons]
        rw [if_neg (by simpa using hc)]
        simpa using bodyOk_append_digit (c :: r) d hd hb

/-- Appending a first dot keeps a literal well formed. -/
theorem goodLit_append_dot (s : Str) (h : goodLit s = true) (hnd : '.' ∉ s) :
    goodLit (s ++ ['.']) = true := by
  rcases goodLit_cases s h with ⟨hm, hb⟩ | ⟨hm, hb⟩
  · cases s with
    | nil => simp at hm
    | cons c r =>
        simp at hm
        subst hm
        simp only [List.cons_append]
        simp only [goodLit, List.head?_cons, List.tail_cons, if_pos rfl]
        exact bodyOk_append_dot r (by simpa using hb)
          fun hx => hnd (List.mem_cons_of_mem _ hx)
  · cases s with
    | nil => simp [bodyOk] at hb
    | cons c r =>
        have hc : c ≠ '-' := by simpa using hm
        simp only [List.cons_append]
        simp only [goodLit, List.head?_cons]
        rw [if_neg (by simpa using hc)]
        simpa using bodyOk_append_dot (c :: r) hb hnd

/-- Toggling the sign keeps a literal well formed. -/
theorem goodLit_toggleMinus (s : Str) (h : goodLit s = true) :
    goodLit (toggleMinus s) = true := by
  rcases goodLit_cases s h with ⟨hm, hb⟩ | ⟨hm, hb⟩
  · simp only [toggleMinus, if_pos hm]
    exact goodLit_of_bodyOk _ hb
  · simp only [toggleMinus, if_neg hm]
    simpa [goodLit] using hb

/-- The backspace else-branch (`slice(0, -1)`) keeps a literal well
formed when the reset guard does not fire. -/
theorem goodLit_dropLast (v : Str) (h : goodLit v = true)
    (hg : ¬(v.length = 1 ∨ (v.head? = some '-' ∧ v.length = 2))) :
    goodLit v.dropLast = true := by
  push_neg at hg
  rcases goodLit_cases v h with ⟨hm, hb⟩ | ⟨hm, hb⟩
  · cases v with
    | nil => simp at hm
    | cons c r =>
        simp at hm
        subst hm
        obtain ⟨d, x, hdx, hd, ht⟩ := bodyOk_head_digit _ (by simpa using hb)
        subst hdx
        have hlen : 2 ≤ (d :: x).length := by
          rcases x with _ | ⟨y, ys⟩
          · exact absurd rfl (hg.2 rfl)
          · simp
        simp only [List.dropLast]
        simp only [goodLit, List.head?_cons, List.tail_cons, if_pos rfl]
        exact bodyOk_dropLast (d :: x) (by simp [bodyOk, hd, ht]) hlen
  · cases v with
    | nil => simp [bodyOk] at hb
    | cons c r =>
        have hc : c ≠ '-' := by simpa using hm
        have hlen : 2 ≤ (c :: r).length := by
          rcases r with _ | ⟨y, ys⟩
          · exact absurd rfl hg.1
          · simp
        exact goodLit_of_bodyOk _ (bodyOk_dropLast (c :: r) hb hlen)

/-- A well-formed literal parses to a (non-NaN) number: its first body
character is a digit, so `parseFloat` reads at least one digit. -/
theorem parseFloat_num_of_goodLit (s : Str) (h : goodLit s = true) :
    ∃ q : Frac, parseFloat s = .num q := by
  have hip : ∀ t : Str, bodyOk t = true →
      (t.takeWhile Char.isDigit).isEmpty = false := by
    intro t ht
    obtain ⟨c, r, rfl, hc, _⟩ := bodyOk_head_digit t ht
    simp [List.takeWhile_cons, hc]
  cases hx : parseFloat s with
  | num q => exact ⟨q, rfl⟩
  | nan =>
      exfalso
      rcases goodLit_cases s h with ⟨hm, hb⟩ | ⟨hm, hb⟩
      · simp [parseFloat, hm, hip _ hb] at hx
      · obtain ⟨c, r, hcr, hc, ht⟩ := bodyOk_head_digit _ hb
        have hp : s.head? ≠ some '+' := by
          rw [hcr]; simpa using (isDigit_ne c hc).2.1
        simp [parseFloat, hm, hp, hip _ hb] at hx

/-- The digit/dot shape of a well-formed tail: all characters digits or
dots, at most one dot. -/
theorem tailOk_validParts (l : Str) (h : tailOk l = true) :
    l.all isDigitDot = true ∧ l.count '.' ≤ 1 := by
  induction l with
  | nil => exact ⟨rfl, by simp⟩
  | cons c r ih =>
      by_cases hc : c = '.'
      · subst hc
        rw [tailOk_cons_dot] at h
        have hnd : '.' ∉ r := by
          intro hm
          have := List.all_eq_true.mp h '.' hm
          exact absurd this (by decide)
        constructor
        · rw [List.all_cons, Bool.and_eq_true]
          refine ⟨by decide, ?_⟩
          rw [List.all_eq_true] at h ⊢
          intro x hx
          have hx2 := h x hx
          simp only [isDigitDot, Bool.or_eq_true]
          exact Or.inl hx2
        · simp [List.count_cons, List.count_eq_zero.mpr hnd]
      · rw [tailOk_cons_ne c r hc, Bool.and_eq_true] at h
        obtain ⟨ha, hcnt⟩ := ih h.2
        constructor
        · rw [List.all_cons, Bool.and_eq_true]
          exact ⟨by simp [isDigitDot, h.1], ha⟩
        · simpa [List.count_cons, hc] using hcnt

/-- A well-formed literal is a valid literal in the spec's sense. -/
theorem validLiteral_of_goodLit (s : Str) (h : goodLit s = true) :
    ValidLiteral s = true := by
  rcases goodLit_cases s h with ⟨hm, hb⟩ | ⟨hm, hb⟩
  · obtain ⟨c, r, hcr, hc, ht⟩ := bodyOk_head_digit _ hb
    obtain ⟨ha, hcnt⟩ := tailOk_validParts r ht
    unfold ValidLiteral
    rw [if_pos hm, hcr]
    simp [isDigitDot, hc, ha, List.count_cons, (isDigit_ne c hc).2.2, hcnt]
  · obtain ⟨c, r, hcr, hc, ht⟩ := bodyOk_head_digit _ hb
    obtain ⟨ha, hcnt⟩ := tailOk_validParts r ht
    unfold ValidLiteral
    rw [if_neg hm, hcr]
    simp [isDigitDot, hc, ha, List.count_cons, (isDigit_ne c hc).2.2, hcnt]

/-- A single digit is a well-formed literal. -/
theorem goodLit_single (d : Char) (hd : d.isDigit = true) : goodLit [d] = true :=
  goodLit_of_bodyOk [d] (by rw [bodyOk_cons]; simp [hd]; rfl)

/-- `handleNumber` never touches the pending pair. -/
theorem handleNumber_frame (v : Str) (st : CalculatorState) :
    (handleNumber v st).previousValue = st.previousValue ∧
      (handleNumber v st).operation = st.operation := by
  unfold handleNumber; split <;> simp

/-- The `currentValue` produced by `handleNumber`. -/
theorem handleNumber_cv (v : Str) (st : CalculatorState) :
    (handleNumber v st).currentValue =
      if st.shouldResetDisplay = true then v
      else if st.currentValue = S "0" then v else st.currentValue ++ v := by
  unfold handleNumber; split <;> simp

/-- The per-state restriction on inputs under which the amended C2 holds:
plain digits are always allowed; a dot only when the current value has no
dot yet (the adapter's guard, src/main.ts line 170), is not "0" (which
the dot would replace, leaving the digitless value ".") and no
fresh-entry reset is pending (which would make "." the whole value). -/
def OkCmd (e : Engine) : Cmd → Prop
  | .inputDigit v => (∃ d, v = [d] ∧ d.isDigit = true) ∨
      (v = S "." ∧ '.' ∉ e.st.currentValue ∧ e.st.currentValue ≠ S "0" ∧
        e.st.shouldResetDisplay = false)
  | _ => True

/-- States reachable from construction through restricted inputs. -/
inductive ReachableR (M : NumModel) : Engine → Prop where
  | init : ReachableR M initEngine
  | next (e : Engine) (cmd : Cmd) : ReachableR M e → OkCmd e cmd →
      ReachableR M (step M cmd e)

/-- A pending operand slot is empty or holds a non-NaN number. -/
def NumOrNone : Option JSNum → Prop
  | none => True
  | some (.num _) => True
  | some .nan => False

/-- The reachability invariant behind the amended C2: a well-formed
display string and a non-NaN pending operand. -/
def EngineInv (e : Engine) : Prop :=
  goodLit e.st.currentValue = true ∧ NumOrNone e.st.previousValue

/-- The float-formatting assumptions of the amended C2: the model's
`toString` prints every number as a well-formed literal (true of JS for
ordinary magnitudes, false in its exponent/`Infinity`/`NaN` regimes), and
`Math.pow` and validated `Math.sqrt` return numbers on number inputs. -/
def GoodModel (M : NumModel) : Prop :=
  (∀ q : Frac, goodLit (M.toString (.num q)) = true) ∧
  (∀ x y : Frac, ∃ z : Frac, M.powFn (.num x) (.num y) = .num z) ∧
  (∀ q : Frac, 0 ≤ q.num → ∃ r : Frac, M.sqrtFn (.num q) = .num r)

/-- A successful validated binary call on numbers yields a number. -/
theorem applyBin_num (M : NumModel) (hM : GoodModel M) (op : Op) (p c : Frac)
    (r : JSNum) (h : applyBin M op (.num p) (.num c) = .ok r) :
    ∃ z : Frac, r = .num z := by
  cases op with
  | add => simp [applyBin, jsAdd] at h; exact ⟨_, h.symm⟩
  | subtract => simp [applyBin, jsSub] at h; exact ⟨_, h.symm⟩
  | multiply => simp [applyBin, jsMul] at h; exact ⟨_, h.symm⟩
  | divide =>
      simp only [applyBin] at h
      split at h
      · exact absurd h (by simp)
      · simp [jsDiv] at h; exact ⟨_, h.symm⟩
  | power =>
      obtain ⟨z, hz⟩ := hM.2.1 p c
      simp only [applyBin] at h
      rw [hz] at h
      simp at h
      exact ⟨z, h.symm⟩
  | sqrt =>
      simp only [applyBin] at h
      split at h
      · exact absurd h (by simp)
      · next hlt =>
          have hle : 0 ≤ p.num := by
            simp [jsLtZero, not_lt] at hlt
            exact hlt
          obtain ⟨z, hz⟩ := hM.2.2 p hle
          rw [hz] at h
          simp at h
          exact ⟨z, h.symm⟩

/-- A successful unary call on a number yields a number (the one-argument
call fills the JS parameter defaults). -/
theorem applyUn_num (M : NumModel) (hM : GoodModel M) (op : Op) (c : Frac)
    (r : JSNum) (h : applyUn M op (.num c) = .ok r) : ∃ z : Frac, r = .num z := by
  cases op with
  | add => simp [applyUn, jsAdd] at h; exact ⟨_, h.symm⟩
  | subtract => simp [applyUn, jsSub] at h; exact ⟨_, h.symm⟩
  | multiply => simp [applyUn, jsMul] at h; exact ⟨_, h.symm⟩
  | divide => simp [applyUn, jsDiv] at h; exact ⟨_, h.symm⟩
  | power =>
      obtain ⟨z, hz⟩ := hM.2.1 c (.ofInt 1)
      simp only [applyUn] at h
      rw [hz] at h
      simp at h
      exact ⟨z, h.symm⟩
  | sqrt =>
      simp only [applyUn] at h
      split at h
      · exact absurd h (by simp)
      · next hlt =>
          have hle : 0 ≤ c.num := by
            simp [jsLtZero, not_lt] at hlt
            exact hlt
          obtain ⟨z, hz⟩ := hM.2.2 c hle
          rw [hz] at h
          simp at h
          exact ⟨z, h.symm⟩

/-- A successful `handleOperationTry` keeps the invariant fields well
formed. -/
theorem handleOperationTry_inv (M : NumModel) (hM : GoodModel M) (op : Op)
    (sym : Str) (u : Bool) (st : CalculatorState) (st' : CalculatorState)
    (hcv : goodLit st.currentValue = true) (hpv : NumOrNone st.previousValue)
    (hTry : handleOperationTry M op sym u st = .ok st') :
    goodLit st'.currentValue = true ∧ NumOrNone st'.previousValue := by
  obtain ⟨cq, hcq⟩ := parseFloat_num_of_goodLit _ hcv
  unfold handleOperationTry at hTry
  cases u with
  | true =>
      cases ha : applyUn M op (parseFloat st.currentValue) with
      | error msg => rw [ha] at hTry; simp [Except.map] at hTry
      | ok r =>
          rw [ha] at hTry
          simp only [Except.map] at hTry
          rw [hcq] at ha
          obtain ⟨z, rfl⟩ := applyUn_num M hM op cq r ha
          cases hTry
          exact ⟨hM.1 z, hpv⟩
  | false =>
      cases ho : st.operation with
      | none =>
          rw [ho] at hTry
          simp only at hTry
          cases hTry
          exact ⟨hcv, by rw [hcq]; trivial⟩
      | some o =>
          cases hp : st.previousValue with
          | none =>
              rw [ho, hp] at hTry
              simp only at hTry
              cases hTry
              exact ⟨hcv, by rw [hcq]; trivial⟩
          | some p =>
              cases hs : st.shouldResetDisplay with
              | true =>
                  rw [ho, hp, hs] at hTry
                  simp only at hTry
                  cases hTry
                  exact ⟨hcv, by rw [hcq]; trivial⟩
              | false =>
                  rw [ho, hp, hs] at hTry
                  simp only at hTry
                  cases p with
                  | nan => rw [hp] at hpv; exact absurd hpv (by simp [NumOrNone])
                  | num pq =>
                      cases hab : applyBin M o (.num pq) (parseFloat st.currentValue) with
                      | error msg => rw [hab] at hTry; simp [Except.map] at hTry
                      | ok r =>
                          rw [hab] at hTry
                          simp only [Except.map] at hTry
                          rw [hcq] at hab
                          obtain ⟨z, rfl⟩ := applyBin_num M hM o pq cq r hab
                          cases hTry
                          exact ⟨hM.1 z, trivial⟩

/-- The Equals command keeps the invariant. -/
theorem performOperation_inv (M : NumModel) (hM : GoodModel M) (e : Engine)
    (hcv : goodLit e.st.currentValue = true) (hpv : NumOrNone e.st.previousValue) :
    EngineInv (performOperation M e) := by
  obtain ⟨cq, hcq⟩ := parseFloat_num_of_goodLit _ hcv
  unfold performOperation
  cases ho : e.st.operation with
  | none => exact ⟨hcv, hpv⟩
  | some o =>
      cases hp : e.st.previousValue with
      | none => exact ⟨hcv, hpv⟩
      | some p =>
          cases p with
          | nan => rw [hp] at hpv; exact absurd hpv (by simp [NumOrNone])
          | num pq =>
              cases hab : applyBin M o (.num pq) (parseFloat e.st.currentValue) with
              | error msg => simp only [hab]; exact ⟨hcv, hpv⟩
              | ok r =>
                  simp only [hab]
                  rw [hcq] at hab
                  obtain ⟨z, rfl⟩ := applyBin_num M hM o pq cq r hab
                  exact ⟨hM.1 z, trivial⟩

/-- Each restricted command preserves the invariant. -/
theorem step_inv (M : NumModel) (hM : GoodModel M) (cmd : Cmd) (e : Engine)
    (hok : OkCmd e cmd) (h : EngineInv e) : EngineInv (step M cmd e) := by
  obtain ⟨hcv, hpv⟩ := h
  cases cmd with
  | inputDigit v =>
      simp only [step]
      refine ⟨?_, (handleNumber_frame v e.st).1 ▸ hpv⟩
      rcases hok with ⟨d, rfl, hd⟩ | ⟨rfl, hnd, h0, hr⟩
      · rw [handleNumber_cv]
        split
        · exact goodLit_single d hd
        · split
          · exact goodLit_single d hd
          · exact goodLit_append_digit _ d hd hcv
      · rw [handleNumber_cv]
        rw [if_neg (by simp [hr]), if_neg h0]
        exact goodLit_append_dot _ hcv hnd
  | applyOp op sym u =>
      simp only [step]
      unfold handleOperation
      cases hTry : handleOperationTry M op sym u e.st with
      | error msg => exact ⟨by simpa using hcv, by simpa using hpv⟩
      | ok st' =>
          obtain ⟨h1, h2⟩ :=
            handleOperationTry_inv M hM op sym u e.st st' hcv hpv hTry
          exact ⟨h1, h2⟩
  | equals =>
      simp only [step]
      exact performOperation_inv M hM e hcv hpv
  | backspace =>
      simp only [step]
      refine ⟨?_, by unfold handleBackspace; split <;> simpa using hpv⟩
      unfold handleBackspace
      split
      · simpa using (show goodLit (S "0") = true by decide)
      · next hg => simpa using goodLit_dropLast _ hcv hg
  | toggleSign =>
      simp only [step]
      refine ⟨?_, by unfold handleSign; split <;> simpa using hpv⟩
      unfold handleSign
      split
      · simpa using goodLit_toggleMinus _ hcv
      · exact hcv
  | clear =>
      simp only [step, handleClear, initEngine]
      exact ⟨by decide, trivial⟩

/-- Restricted reachability entails the invariant. -/
theorem reachable_inv (M : NumModel) (hM : GoodModel M) (e : Engine)
    (he : ReachableR M e) : EngineInv e := by
  induction he with
  | init => exact ⟨by decide, trivial⟩
  | next e cmd hre hok ih => exact step_inv M hM cmd e hok ih

/-- C2, amended.  Under the stated number-formatting assumptions and
with '.' only input when `currentValue` contains no dot, is not "0" and
no fresh-entry reset is pending, every reachable state shows a valid
nonempty numeric literal: optionally signed, digits with at most one
dot, at least one digit. -/
theorem c2_reachable_valid_literal (M : NumModel)
    (htos : ∀ q : Frac, goodLit (M.toString (.num q)) = true)
    (hpow : ∀ x y : Frac, ∃ z : Frac, M.powFn (.num x) (.num y) = .num z)
    (hsqrt : ∀ q : Frac, 0 ≤ q.num → ∃ r : Frac, M.sqrtFn (.num q) = .num r)
    (e : Engine) (he : ReachableR M e) :
    ValidLiteral e.st.currentValue = true ∧ e.st.currentValue ≠ [] := by
  have hinv := reachable_inv M ⟨htos, hpow, hsqrt⟩ e he
  refine ⟨validLiteral_of_goodLit _ hinv.1, ?_⟩
  intro hnil
  have := hinv.1
  rw [hnil] at this
  exact absurd this (by decide)

/-- A numeric model satisfying the formatting assumptions of the amended
C2, used only to witness their satisfiability. -/
def idealModel : NumModel where
  powFn a b := jsMul a b
  sqrtFn a := a
  toString _ := S "0"

/-- C2, witness: the amended invariant evaluated one step from the
initial state under the witness model. -/
theorem c2_witness :
    ValidLiteral (step idealModel (.inputDigit (S "7")) initEngine).st.currentValue =
      true := by
  have h := c2_reachable_valid_literal idealModel
    (fun q => by show goodLit (S "0") = true; decide)
    (fun x y => ⟨x.mul y, rfl⟩)
    (fun q hq => ⟨q, rfl⟩)
    (step idealModel (.inputDigit (S "7")) initEngine)
    (ReachableR.next initEngine (.inputDigit (S "7")) ReachableR.init
      (Or.inl ⟨'7', rfl, by decide⟩))
  exact h.1

/-- The both-or-neither shape of the pending pair: `operation` and
`previousValue` are both absent or both present. -/
def PendingTogether (st : CalculatorState) : Prop :=
  st.operation.isSome = st.previousValue.isSome

/-- Every command keeps `operation` and `previousValue` both-or-neither:
the chaining and first-operator branches set both, the unary branch and
every failure path touch neither, Equals clears both on success, and
Clear resets both. -/
theorem step_pendingTogether (M : NumModel) (cmd : Cmd) (e : Engine)
    (h : PendingTogether e.st) : PendingTogether (step M cmd e).st := by
  unfold PendingTogether at *
  cases cmd with
  | inputDigit v =>
      simp only [step]
      unfold handleNumber
      split <;> simpa using h
  | applyOp op sym u =>
      simp only [step]
      unfold handleOperation handleOperationTry
      cases u with
      | true =>
          cases hau : applyUn M op (parseFloat e.st.currentValue) <;>
            simp [hau, Except.map, h]
      | false =>
          cases ho : e.st.operation with
          | none => simp [ho, Except.map]
          | some o =>
              cases hp : e.st.previousValue with
              | none => simp [ho, hp, Except.map]
              | some p =>
                  cases hs : e.st.shouldResetDisplay with
                  | false =>
                      cases hab : applyBin M o p (parseFloat e.st.currentValue) <;>
                        simp [ho, hp, hs, hab, Except.map]
                  | true => simp [ho, hp, hs, Except.map]
  | equals =>
      simp only [step]
      unfold performOperation
      cases ho : e.st.operation with
      | none => simpa [ho] using h
      | some o =>
          cases hp : e.st.previousValue with
          | none => simp [ho, hp] at h
          | some p =>
              cases hab : applyBin M o p (parseFloat e.st.currentValue) <;>
                simp [ho, hp, hab]
  | backspace =>
      simp only [step]
      unfold handleBackspace
      split <;> simpa using h
  | toggleSign =>
      simp only [step]
      unfold handleSign
      split <;> simpa using h
  | clear => simp [step, handleClear, initEngine]

/-- C7.  In every state reachable from the initial state by any command
sequence, `operation` and `previousValue` are both absent or both
present, and every single command preserves this both-or-neither shape. -/
theorem c7_pending_together (M : NumModel) :
    (∀ cmds : List Cmd, PendingTogether (run M cmds).st) ∧
    (∀ (e : Engine) (cmd : Cmd), PendingTogether e.st →
      PendingTogether (step M cmd e).st) := by
  refine ⟨?_, fun e cmd h => step_pendingTogether M cmd e h⟩
  intro cmds
  suffices h : ∀ e : Engine, PendingTogether e.st →
      PendingTogether (cmds.foldl (fun e cmd => step M cmd e) e).st by
    exact h initEngine rfl
  induction cmds with
  | nil => exact fun e he => he
  | cons c cs ih => exact fun e he => ih _ (step_pendingTogether M c e he)

/-- C7, witness: the invariant evaluated on a two-command run, and the
preservation step applied to the initial engine. -/
theorem c7_witness :
    PendingTogether (run jsModel [.inputDigit (S "5"), .applyOp .add (S "+") false]).st ∧
      PendingTogether (step jsModel .equals initEngine).st :=
  ⟨(c7_pending_together jsModel).1 _,
    (c7_pending_together jsModel).2 initEngine .equals rfl⟩

/-- C8, witness: the amended double-toggle evaluated on "5" and the no-op
on "0". -/
theorem c8_witness :
    handleSign (handleSign ⟨S "5", none, none, false, S ""⟩) =
        (⟨S "5", none, none, false, S ""⟩ : CalculatorState) ∧
      handleSign (⟨S "0", none, none, false, S ""⟩ : CalculatorState) =
        ⟨S "0", none, none, false, S ""⟩ :=
  ⟨c8_toggle_sign_involutive.1 _ (by decide) (by decide) (by decide),
    c8_toggle_sign_involutive.2 _ (by decide)⟩

end Calc
